import Mathlib

/-!
Verification of the retrieval-augmented answering pipeline of the
DataroomChatbot backend (`backend/embed_utils.py`, `backend/rag_utils.py`).

Modelling conventions:
* Python `str` values are embedded as `List Char`; `str.strip`, `str.split`,
  `str.isdigit` and `int(·)` are embedded by the structural functions
  `pyStrip`, `splitOnChar`, `pyIsDigit`, `pyInt` below, following Python
  semantics.
* Calls to external services (OpenAI chat completions, OpenAI embeddings,
  the FAISS search call, Google Cloud Storage) are embedded as explicit
  oracle parameters.  A parameter of type `Except Unit τ` stands for an
  external call (together with the code's processing of its raw reply up to
  the modelled point) that either returns a value of type `τ` or raises an
  exception; `Except.error ()` is caught by the corresponding Python
  `try/except` block.
* Token streams produced by `tiktoken` are embedded as `List Nat`; the text
  of a chunk is identified with its token slice.
* `numpy.float32` similarity scores are embedded as `ℚ`, embedding vectors
  as `List ℝ` with exact arithmetic.
-/

namespace Dataroom

/-! ### Python string primitives (over `List Char`) -/

/-- Characters stripped by Python `str.strip()`. -/
def pyIsSpace (c : Char) : Bool :=
  c = ' ' || c = '\t' || c = '\n' || c = '\r' || c = '\x0b' || c = '\x0c'

/-- Python `s.strip()`: remove leading and trailing whitespace. -/
def pyStrip (s : List Char) : List Char :=
  ((s.dropWhile pyIsSpace).reverse.dropWhile pyIsSpace).reverse

/-- Python `s.split(sep)` for a one-character separator: split at every
occurrence, keeping empty parts. -/
def splitOnChar (sep : Char) : List Char → List (List Char)
  | [] => [[]]
  | c :: rest =>
    let r := splitOnChar sep rest
    if c = sep then [] :: r else (c :: r.headI) :: r.tail

/-- Python `s.isdigit()` (ASCII): nonempty and all characters are digits. -/
def pyIsDigit (s : List Char) : Bool :=
  !s.isEmpty && s.all fun c => '0' ≤ c && c ≤ '9'

/-- Python `int(s)` for a digit string. -/
def pyInt (s : List Char) : Nat :=
  s.foldl (fun a c => a * 10 + (c.toNat - '0'.toNat)) 0

/-! ### Chunker — `EmbeddingManager._split_into_chunks`

The text is represented by its token stream `tokens` together with the
Boolean `stripNonempty` standing for `bool(text.strip())`.  The test
`self.encoding.decode(chunk_tokens[:j+1]).strip().endswith(('.','!','?','\n'))`
depends only on the token prefix `chunk_tokens[:j+1]`, so it is embedded
as an abstract predicate `P` on that prefix. -/

/-- `self.chunk_size` — `EmbeddingManager.__init__` default. -/
def chunk_size : Nat := 300

/-- `overlap_tokens = 50` — literal inside `_split_into_chunks`. -/
def overlap_tokens : Nat := 50

/-- The candidate cut positions `j` visited by
`for j in range(len(chunk_tokens) - 1, max(0, len(chunk_tokens) - 20), -1)`,
in visiting (descending) order, for `n = len(chunk_tokens)`. -/
def backoffCandidates (n : Nat) : List Nat :=
  (List.range' (n - 20 + 1) (n - 1 - (n - 20))).reverse

/-- The sentence-boundary backoff loop of `_split_into_chunks`: the first
candidate `j` (in descending order) whose decoded prefix passes the
sentence-terminator test truncates the chunk to `chunk_tokens[:j+1]`;
otherwise the chunk is kept whole. -/
def applyBackoff (P : List Nat → Bool) (ct : List Nat) : List Nat :=
  match (backoffCandidates ct.length).find? (fun j => P (ct.take (j + 1))) with
  | some j => ct.take (j + 1)
  | none => ct

/-- The `while i < len(tokens)` loop of `_split_into_chunks`, acting on the
remaining suffix `rest = tokens[i:]`.  When `end_idx < len(tokens)` (here:
`rest.length > chunk_size`) the window is `rest.take chunk_size`, the backoff
applies, and the next iteration starts at `i = end_idx - overlap_tokens`,
i.e. on `rest.drop (chunk_size - overlap_tokens)`; otherwise the final chunk
is the whole remainder and the loop breaks. -/
def splitGo (P : List Nat → Bool) (rest : List Nat) : List (List Nat) :=
  if rest.length ≤ chunk_size then [rest]
  else applyBackoff P (rest.take chunk_size) ::
    splitGo P (rest.drop (chunk_size - overlap_tokens))
termination_by rest.length
decreasing_by
  simp only [chunk_size, overlap_tokens, List.length_drop] at *
  omega

/-- `EmbeddingManager._split_into_chunks`.  The guard
`if not text.strip(): return []` is `stripNonempty = false`; an empty token
stream never enters the `while` loop. -/
def split_into_chunks (P : List Nat → Bool) (stripNonempty : Bool)
    (tokens : List Nat) : List (List Nat) :=
  if !stripNonempty then []
  else if tokens.isEmpty then []
  else splitGo P tokens

/-- Two consecutive chunks overlap: a nonempty segment of at most
`overlap_tokens` tokens is simultaneously a suffix of the earlier chunk
(hence lies within its trailing `overlap_tokens` tokens) and a leading
segment of the later chunk. -/
def chunkOverlap (c₁ c₂ : List Nat) : Prop :=
  ∃ seg, seg ≠ [] ∧ seg.length ≤ overlap_tokens ∧
    (∃ p, c₁ = p ++ seg) ∧ (∃ s, c₂ = seg ++ s)

/-! ### Vector index — `EmbeddingManager._create_and_save_index`,
`load_index`, `index_exists`

Google Cloud Storage is embedded as the two blobs the code ever touches
(`faiss_index/index.faiss`, `faiss_index/metadata.json`); the blob-store
contract (byte-exact write/read, per §4.2/§6 of the design) makes upload
followed by download the identity on the stored value.  The serialized
FAISS `IndexFlatIP` is its vector table, metadata entries are kept opaque
(type `μ`) since `json.dump`/`json.load` round-trips them. -/

/-- `self.dimension = 1536`. -/
def dimension : Nat := 1536

/-- `faiss.normalize_L2`: scale each vector by the reciprocal of its
Euclidean norm (exact-real model of the float computation). -/
noncomputable def normalizeL2 (v : List ℝ) : List ℝ :=
  v.map fun x => x / Real.sqrt (v.map fun y => y * y).sum

/-- The pair of Cloud Storage blobs used by the index code. -/
structure CloudStore (μ : Type) where
  indexBlob : Option (List (List ℝ))
  metadataBlob : Option (List μ)

/-- `EmbeddingManager._create_and_save_index`: build `IndexFlatIP(1536)`,
`normalize_L2` the embeddings in place, `index.add` them (which raises iff
some vector's dimensionality differs from 1536 — embedded as the `all`
guard), write index and metadata locally, upload both blobs.  A raised
exception is re-raised (`Except.error`); on it nothing is uploaded. -/
noncomputable def create_and_save_index (embeddings : List (List ℝ))
    (metadata : List μ) : Except Unit (CloudStore μ) :=
  if embeddings.all (fun v => v.length = dimension) then
    Except.ok ⟨some (embeddings.map normalizeL2), some metadata⟩
  else
    Except.error ()

/-- `EmbeddingManager.index_exists`: both blobs must be present. -/
def index_exists (store : CloudStore μ) : Bool :=
  store.indexBlob.isSome && store.metadataBlob.isSome

/-- `EmbeddingManager.load_index`: raise when `index_exists` is false,
otherwise download and deserialize both blobs. -/
def load_index (store : CloudStore μ) :
    Except Unit (List (List ℝ) × List μ) :=
  match store.indexBlob, store.metadataBlob with
  | some vecs, some md => Except.ok (vecs, md)
  | _, _ => Except.error ()

/-! ### Query expansion — `RAGManager._expand_query`

`_classify_query_intent` catches all of its own exceptions and returns a
default dict, so only its successor can fail; every failure inside
`_expand_query`'s `try` block (the chat-completion call, or a `KeyError` on
`intent['level']`) is the oracle outcome `Except.error ()` and is caught by
the `except` clause.  On success the oracle carries the raw reply text. -/

/-- `RAGManager._expand_query`: parse one variant per nonempty stripped
line of the reply, prepend the verbatim original query, cap at 4. -/
def expand_query (query : List Char) (reply : Except Unit (List Char)) :
    List (List Char) :=
  match reply with
  | Except.error _ => [query]
  | Except.ok text =>
    let variations :=
      ((splitOnChar '\n' (pyStrip text)).map pyStrip).filter fun l => !l.isEmpty
    (query :: variations).take 4

/-! ### Reranker — `RAGManager._rerank_chunks_with_llm` -/

/-- Insert into a descending-sorted list after every entry with a score
greater than or equal to the new score. -/
def insertDesc (p : Nat × α) : List (Nat × α) → List (Nat × α)
  | [] => [p]
  | q :: rest => if q.1 < p.1 then p :: q :: rest else q :: insertDesc p rest

/-- Python `scored_chunks.sort(key=lambda x: x[0], reverse=True)`: a stable
descending sort by score, embedded as left-to-right insertion. -/
def sortDesc (l : List (Nat × α)) : List (Nat × α) :=
  l.foldl (fun acc p => insertDesc p acc) []

/-- `scores = [int(x.strip()) for x in scores_text.split(',') if x.strip().isdigit()]`. -/
def parseScores (s : List Char) : List Nat :=
  (((splitOnChar ',' s).map pyStrip).filter pyIsDigit).map pyInt

/-- `RAGManager._rerank_chunks_with_llm`.  `query` only shapes the scoring
prompt sent to the oracle; `reply` is the chat-completion outcome, with
`scores_text = reply.strip()`.  Every exception path returns `chunks`. -/
def rerank_chunks_with_llm (chunks : List (List Char)) (query : List Char)
    (reply : Except Unit (List Char)) : List (List Char) :=
  if chunks.length ≤ 1 then chunks
  else
    match reply with
    | Except.error _ => chunks
    | Except.ok text =>
      let scores := parseScores (pyStrip text)
      if scores.length = chunks.length then
        let scored := sortDesc (scores.zip chunks)
        let filtered := (scored.filter fun p => 4 ≤ p.1).map Prod.snd
        if !filtered.isEmpty then filtered else [chunks.headI]
      else chunks

/-! ### Retriever — `RAGManager._get_relevant_context`

One iteration of the outer loop embeds, for one query variant, the pair
`embed_query` + `index.search` as the oracle `search : List Char →
Except Unit (List (ℚ × Int))`, yielding the zipped `(score, idx)` stream
`zip(scores[0], indices[0])` (or an exception from the embedding call).
FAISS indices are `int64` values (possibly `-1`), and `self.metadata[idx]`
follows Python list-indexing semantics: negative indices address from the
end, out-of-range raises `IndexError`, which the enclosing `try` turns
into `([], [])`. -/

/-- One entry of `self.metadata` as consumed by the retriever
(`chunk_metadata.get('chunk_text', '')` and `chunk_metadata['file_name']`;
both keys are always set by `process_and_embed_files`). -/
structure ChunkMeta where
  chunk_text : List Char
  file_name : List Char
deriving DecidableEq

/-- Python `l[i]` for an `int` index: negative indices wrap once from the
end; anything else out of range is an `IndexError` (`none`). -/
def pyGet (l : List α) (i : Int) : Option α :=
  if 0 ≤ i then l.get? i.toNat
  else if (-i).toNat ≤ l.length then l.get? (l.length - (-i).toNat) else none

/-- Accumulator of the retrieval loops: `(all_chunks, all_sources,
seen_chunks)`; the Python `set` is embedded as the insertion-ordered list
of its elements (only membership is consulted). -/
abbrev RetrievalAcc := List (List Char) × List (List Char) × List (List Char)

/-- The body of `for i, (score, idx) in enumerate(zip(scores[0], indices[0]))`:
keep hits strictly above the 0.5 similarity floor, dedup by chunk text, and
record the source file name only when the chunk text is newly seen. -/
def processHit (metadata : List ChunkMeta) (acc : RetrievalAcc)
    (hit : ℚ × Int) : Except Unit RetrievalAcc :=
  let (chunks, sources, seen) := acc
  if hit.1 > 1/2 then
    match pyGet metadata hit.2 with
    | none => Except.error ()
    | some md =>
      if !md.chunk_text.isEmpty && md.chunk_text ∉ seen then
        Except.ok (chunks ++ [md.chunk_text],
          (if md.file_name ∈ sources then sources else sources ++ [md.file_name]),
          seen ++ [md.chunk_text])
      else
        Except.ok acc
  else
    Except.ok acc

/-- The two nested retrieval loops of `_get_relevant_context`. -/
def retrieveLoop (metadata : List ChunkMeta)
    (search : List Char → Except Unit (List (ℚ × Int)))
    (queries : List (List Char)) : Except Unit RetrievalAcc :=
  queries.foldlM
    (fun acc q => do
      let hits ← search q
      hits.foldlM (processHit metadata) acc)
    ([], [], [])

/-- `RAGManager._get_relevant_context`: run the retrieval loops, then, when
candidates exist and `len(queries) > 0`, re-rank the chunk list (sources are
left untouched) with `queries[0]` as the re-ranking question.  Any exception
in the `try` block yields `([], [])`. -/
def get_relevant_context (metadata : List ChunkMeta)
    (search : List Char → Except Unit (List (ℚ × Int)))
    (queries : List (List Char)) (rerankReply : Except Unit (List Char)) :
    List (List Char) × List (List Char) :=
  match retrieveLoop metadata search queries with
  | Except.error _ => ([], [])
  | Except.ok (all_chunks, all_sources, _) =>
    if !all_chunks.isEmpty && 0 < queries.length then
      (rerank_chunks_with_llm all_chunks queries.headI rerankReply, all_sources)
    else
      (all_chunks, all_sources)

/-! ### Answer synthesis — `RAGManager._generate_answer` and
`RAGManager.answer_question` -/

/-- One `{"role": ..., "content": ...}` chat message. -/
structure ChatMsg where
  role : List Char
  content : List Char
deriving DecidableEq

/-- The fixed system instruction of `_generate_answer` (content immaterial
to the verified properties; abridged to its first line). -/
def system_message : ChatMsg :=
  ⟨"system".toList,
   "You are a helpful assistant for a venture capital dataroom.".toList⟩

/-- The final user turn of `_generate_answer`: joined context, question,
formatting directive. -/
def user_message (question : List Char) (context_chunks : List (List Char)) :
    ChatMsg :=
  ⟨"user".toList,
   "Context from dataroom documents:\n".toList ++
     (context_chunks.intersperse "\n\n".toList).flatten ++
     "\n\nQuestion: ".toList ++ question ++
     "\n\nPlease provide a comprehensive answer using the context above. Use markdown formatting for lists and structure.".toList⟩

/-- The message sequence assembled by `_generate_answer`: the system turn,
then — when a history is supplied — `conversation_history[-10:]`, then the
user turn.  `conversation_history[-10:]` is the suffix
`history.drop (history.length - 10)`. -/
def build_messages (question : List Char) (context_chunks : List (List Char))
    (history : List ChatMsg) : List ChatMsg :=
  [system_message] ++
    (if history.isEmpty then [] else history.drop (history.length - 10)) ++
    [user_message question context_chunks]

/-- `RAGManager._generate_answer`.  The chat-completion oracle `genReply`
sees `build_messages`; the code only reads the caller's history (slicing
copies), so the state-passing embedding returns the history unchanged as
its second component.  A failure becomes an apology string. -/
def generate_answer (question : List Char) (context_chunks : List (List Char))
    (history : List ChatMsg) (genReply : List ChatMsg → Except Unit (List Char)) :
    List Char × List ChatMsg :=
  match genReply (build_messages question context_chunks history) with
  | Except.ok text => (pyStrip text, history)
  | Except.error _ =>
    ("Sorry, I encountered an error while generating the answer.".toList, history)

/-- `"I don't have access to any documents yet. Please update the dataroom
first."` -/
def no_documents_answer : List Char :=
  "I don\x27t have access to any documents yet. Please update the dataroom first.".toList

/-- `"I couldn't find any relevant information in the dataroom to answer
your question."` -/
def no_relevant_info_answer : List Char :=
  "I couldn\x27t find any relevant information in the dataroom to answer your question.".toList

/-- `RAGManager.answer_question`.  `index` is `self.index` (`none` when no
index was ever loaded); `metadata` is `self.metadata`; the remaining oracle
parameters stand for the external calls of the successive stages. -/
def answer_question (index : Option (List (List ℝ))) (metadata : List ChunkMeta)
    (expandReply : Except Unit (List Char))
    (search : List Char → Except Unit (List (ℚ × Int)))
    (rerankReply : Except Unit (List Char))
    (genReply : List ChatMsg → Except Unit (List Char))
    (question : List Char) (history : List ChatMsg) :
    List Char × List (List Char) :=
  match index with
  | none => (no_documents_answer, [])
  | some _ =>
    let expanded := expand_query question expandReply
    let (relevant_chunks, sources) :=
      get_relevant_context metadata search expanded rerankReply
    if relevant_chunks.isEmpty then (no_relevant_info_answer, [])
    else ((generate_answer question relevant_chunks history genReply).1, sources)

/-! ## Supporting lemmas -/

lemma insertDesc_perm (p : Nat × α) (l : List (Nat × α)) :
    List.Perm (insertDesc p l) (p :: l) := by
  induction l with
  | nil => exact List.Perm.refl _
  | cons q rest ih =>
    unfold insertDesc
    split
    · exact List.Perm.refl _
    · exact (ih.cons q).trans (List.Perm.swap p q rest)

lemma foldl_insertDesc_perm (l acc : List (Nat × α)) :
    List.Perm (l.foldl (fun acc p => insertDesc p acc) acc) (acc ++ l) := by
  induction l generalizing acc with
  | nil => simp
  | cons x rest ih =>
    simp only [List.foldl_cons]
    have h2 : List.Perm (insertDesc x acc ++ rest) (x :: (acc ++ rest)) :=
      (insertDesc_perm x acc).append_right rest
    have h3 : List.Perm (acc ++ x :: rest) (x :: (acc ++ rest)) := List.perm_middle
    exact ((ih _).trans h2).trans h3.symm

lemma sortDesc_perm (l : List (Nat × α)) : List.Perm (sortDesc l) l := by
  simpa using foldl_insertDesc_perm l []

lemma mem_sortDesc {p : Nat × α} {l : List (Nat × α)} :
    p ∈ sortDesc l ↔ p ∈ l :=
  (sortDesc_perm l).mem_iff

lemma applyBackoff_take (P : List Nat → Bool) (ct : List Nat) :
    ∃ m, applyBackoff P ct = ct.take m ∧ ct.length - 19 ≤ m ∧ m ≤ ct.length := by
  unfold applyBackoff
  cases hfind : (backoffCandidates ct.length).find? (fun j => P (ct.take (j + 1))) with
  | none => exact ⟨ct.length, by rw [List.take_length], by omega, le_rfl⟩
  | some j =>
    have hmem : j ∈ backoffCandidates ct.length := List.mem_of_find?_eq_some hfind
    unfold backoffCandidates at hmem
    rw [List.mem_reverse, List.mem_range'_1] at hmem
    exact ⟨j + 1, rfl, by omega, by omega⟩

lemma applyBackoff_take_of_long (P : List Nat → Bool) (rest : List Nat)
    (h : chunk_size ≤ rest.length) :
    ∃ m, applyBackoff P (rest.take chunk_size) = rest.take m ∧
      chunk_size - 19 ≤ m ∧ m ≤ chunk_size := by
  obtain ⟨m, hm, hlo, hhi⟩ := applyBackoff_take P (rest.take chunk_size)
  have hlen : (rest.take chunk_size).length = chunk_size := by
    rw [List.length_take]
    omega
  rw [hlen] at hlo hhi
  exact ⟨m, by rw [hm, List.take_take, min_eq_left hhi], hlo, hhi⟩

lemma splitGo_head (P : List Nat → Bool) (rest : List Nat) :
    ∃ m tl, splitGo P rest = rest.take m :: tl ∧ min rest.length 281 ≤ m := by
  rw [splitGo]
  split
  · exact ⟨rest.length, [], by rw [List.take_length], min_le_left _ _⟩
  · rename_i h
    obtain ⟨m, hm, hlo, hhi⟩ := applyBackoff_take_of_long P rest (by omega)
    refine ⟨m, _, by rw [hm], ?_⟩
    simp only [chunk_size] at hlo
    exact le_trans (min_le_right _ _) (by omega)

lemma splitGo_length_le (P : List Nat → Bool) (rest : List Nat) :
    ∀ c ∈ splitGo P rest, c.length ≤ chunk_size := by
  intro c hc
  rw [splitGo] at hc
  split at hc
  · rename_i h
    rcases List.mem_singleton.1 hc with rfl
    exact h
  · rcases List.mem_cons.1 hc with rfl | hc'
    · obtain ⟨m, hm, _, hhi⟩ := applyBackoff_take P (rest.take chunk_size)
      rw [hm]
      simp only [List.length_take]
      omega
    · exact splitGo_length_le P _ c hc'
termination_by rest.length
decreasing_by
  simp only [chunk_size, overlap_tokens, List.length_drop] at *
  omega

lemma splitGo_chain (P : List Nat → Bool) (rest : List Nat) :
    List.Chain' chunkOverlap (splitGo P rest) := by
  rw [splitGo]
  split
  · exact List.chain'_singleton _
  · rename_i h
    rw [List.chain'_cons']
    refine ⟨?_, splitGo_chain P _⟩
    intro y hy
    have h250 : chunk_size - overlap_tokens = 250 := rfl
    rw [h250] at hy
    obtain ⟨m', tl, heq, hmin⟩ := splitGo_head P (rest.drop 250)
    rw [heq, List.head?_cons, Option.mem_def, Option.some_inj] at hy
    subst hy
    obtain ⟨L, hL, hLlo, hLhi⟩ := applyBackoff_take_of_long P rest (by omega)
    rw [hL]
    have hCS : chunk_size = 300 := rfl
    rw [hCS] at hLlo hLhi h
    have hrest : 301 ≤ rest.length := by omega
    have hm'ge : L - 250 ≤ m' := by
      simp only [List.length_drop] at hmin
      omega
    refine ⟨(rest.drop 250).take (L - 250), ?_, ?_, ⟨rest.take 250, ?_⟩,
      ⟨((rest.drop 250).drop (L - 250)).take (m' - (L - 250)), ?_⟩⟩
    · apply List.ne_nil_of_length_pos
      simp only [List.length_take, List.length_drop]
      omega
    · simp only [overlap_tokens, List.length_take, List.length_drop]
      omega
    · have h3 := List.take_add rest 250 (L - 250)
      have hEq : 250 + (L - 250) = L := by omega
      rw [hEq] at h3
      exact h3
    · have h4 := List.take_add (rest.drop 250) (L - 250) (m' - (L - 250))
      have hEq : L - 250 + (m' - (L - 250)) = m' := by omega
      rw [hEq] at h4
      exact h4
termination_by rest.length
decreasing_by
  simp only [chunk_size, overlap_tokens, List.length_drop] at *
  omega

/-! ## Claims -/

/-- Claim C2, counterexample.  With chunks `["a", "b"]` and well-formed
score reply `"0,3"` (all scores < 4), the fallback returns the *first*
input chunk `["a"]`, not the highest-scored chunk `"b"`: the claim that
the one-element result contains the single highest-scored chunk is false. -/
theorem c2_counterexample :
    parseScores (pyStrip ['0', ',', '3']) = [0, 3] ∧
    rerank_chunks_with_llm [['a'], ['b']] ['q'] (Except.ok ['0', ',', '3']) = [['a']] ∧
    rerank_chunks_with_llm [['a'], ['b']] ['q'] (Except.ok ['0', ',', '3']) ≠ [['b']] := by
  refine ⟨by decide, by decide, by decide⟩

/-- Claim C2 (amended): for every non-empty chunk list given to the
reranker with a well-formed score reply (parsed count equal to the chunk
count) in which every score is < 4, rerank returns the one-element list
holding the *first* chunk of the input (`chunks[0]`), never an empty
list. -/
theorem c2_all_scores_low_returns_first_chunk
    (chunks : List (List Char)) (q text : List Char)
    (hne : chunks ≠ [])
    (hlen : (parseScores (pyStrip text)).length = chunks.length)
    (hlow : ∀ s ∈ parseScores (pyStrip text), s < 4) :
    rerank_chunks_with_llm chunks q (Except.ok text) = [chunks.headI] := by
  unfold rerank_chunks_with_llm
  by_cases hle : chunks.length ≤ 1
  · have h1 : chunks.length = 1 := by
      have := List.length_pos.2 hne
      omega
    obtain ⟨a, rfl⟩ := List.length_eq_one.1 h1
    simp
  · have hfilter :
        ((sortDesc ((parseScores (pyStrip text)).zip chunks)).filter
          fun p => 4 ≤ p.1) = [] := by
      rw [List.filter_eq_nil_iff]
      intro p hp
      have hmem : p ∈ (parseScores (pyStrip text)).zip chunks := mem_sortDesc.1 hp
      have := hlow p.1 (List.of_mem_zip hmem).1
      simp only [decide_eq_true_eq]
      omega
    simp [hle, hlen, hfilter]

/-- Claim C2, witness for the amended theorem at chunks `["a", "b"]`,
reply `"0,3"`. -/
theorem c2_witness :
    rerank_chunks_with_llm [['a'], ['b']] ['q'] (Except.ok ['0', ',', '3']) =
      [([['a'], ['b']] : List (List Char)).headI] :=
  c2_all_scores_low_returns_first_chunk [['a'], ['b']] ['q'] ['0', ',', '3']
    (by decide) (by decide) (by decide)

/-- Claim C7: for every chunk list of length ≥ 2 and every score reply
whose parsed integer count differs from the chunk count, rerank returns
the exact input list, unchanged in order and membership (fail-open; the
embedding is total, so no exception escapes). -/
theorem c7_mismatched_scores_fail_open
    (chunks : List (List Char)) (q text : List Char)
    (hlen2 : 2 ≤ chunks.length)
    (hmm : (parseScores (pyStrip text)).length ≠ chunks.length) :
    rerank_chunks_with_llm chunks q (Except.ok text) = chunks := by
  unfold rerank_chunks_with_llm
  have hle : ¬ chunks.length ≤ 1 := by omega
  simp [hle, hmm]

/-- Claim C7, witness at chunks `["a", "b"]`, reply `"5"` (one parsed
score for two chunks). -/
theorem c7_witness :
    rerank_chunks_with_llm [['a'], ['b']] ['q'] (Except.ok ['5']) = [['a'], ['b']] :=
  c7_mismatched_scores_fail_open [['a'], ['b']] ['q'] ['5'] (by decide) (by decide)

/-- Claim C10: in every branch of the reranker (0-or-1-chunk skip,
successful scoring, score-count mismatch, and exception fallback), every
element of the returned list is an element of the input chunk list — the
reranker never introduces a chunk text it was not given. -/
theorem c10_rerank_returns_subset
    (chunks : List (List Char)) (q : List Char) (reply : Except Unit (List Char)) :
    ∀ c ∈ rerank_chunks_with_llm chunks q reply, c ∈ chunks := by
  intro c hc
  unfold rerank_chunks_with_llm at hc
  split at hc
  · exact hc
  · rename_i hle
    cases reply with
    | error e => exact hc
    | ok text =>
      simp only at hc
      split at hc
      · split at hc
        · obtain ⟨p, hp, rfl⟩ := List.mem_map.1 hc
          exact (List.of_mem_zip (mem_sortDesc.1 (List.mem_filter.1 hp).1)).2
        · have hne : chunks ≠ [] := by
            intro h
            rw [h] at hle
            exact hle (by simp)
          obtain ⟨a, t, rfl⟩ := List.exists_cons_of_ne_nil hne
          rcases List.mem_singleton.1 hc with rfl
          simp
      · exact hc

/-- Claim C10, witness: applying the subset theorem in the exception
branch at chunks `[['a']]`. -/
theorem c10_witness : (['a'] : List Char) ∈ [(['a'] : List Char)] :=
  c10_rerank_returns_subset [['a']] ['q'] (Except.error ()) ['a'] (by decide)

/-- Claim C6: the query-expansion result always starts with the verbatim
original question, has length at most 4, and degrades to exactly
`[original_question]` on a failed expansion step. -/
theorem c6_expand_query_shape (query : List Char) (reply : Except Unit (List Char)) :
    (expand_query query reply).head? = some query ∧
    (expand_query query reply).length ≤ 4 ∧
    expand_query query (Except.error ()) = [query] := by
  refine ⟨?_, ?_, rfl⟩ <;> unfold expand_query <;> cases reply <;> simp

/-- Claim C6, witness at query `"q"` and reply `"v"`. -/
theorem c6_witness :
    (expand_query ['q'] (Except.ok ['v'])).head? = some ['q'] ∧
    (expand_query ['q'] (Except.ok ['v'])).length ≤ 4 ∧
    expand_query ['q'] (Except.error ()) = [['q']] :=
  c6_expand_query_shape ['q'] (Except.ok ['v'])

/-- Claim C1, counterexample.  One query variant surfaces the same chunk
text `"t"` (score 1 > 0.5) from two metadata entries with distinct file
names `"f1"`, `"f2"`.  The chunk list indeed holds the text exactly once,
but the returned sources list is `["f1"]` only — it does *not* contain
both file names, refuting the claim. -/
theorem c1_counterexample :
    get_relevant_context [⟨['t'], ['f', '1']⟩, ⟨['t'], ['f', '2']⟩]
      (fun _ => Except.ok [((1 : ℚ), (0 : Int)), ((1 : ℚ), (1 : Int))])
      [['q']] (Except.error ()) = ([['t']], [['f', '1']]) ∧
    (['f', '2'] : List Char) ∉ [(['f', '1'] : List Char)] := by
  constructor
  · have h : ((1 : ℚ) > 1/2) = True := by norm_num
    simp only [get_relevant_context, retrieveLoop, List.foldlM, bind, Except.bind,
      pure, Except.pure, processHit, pyGet, h]
    norm_num [rerank_chunks_with_llm]
  · decide

/-- Claim C1 (amended): when one query variant surfaces the same nonempty
chunk text above the 0.5 similarity threshold from two metadata entries
with different file names, retrieval returns the chunk text exactly once,
and the sources list contains only the file name of the entry that first
surfaced the text — the second file name is not recorded, because a source
name is collected only when its chunk text is seen for the first time. -/
theorem c1_duplicate_text_first_source_only
    (t f₁ f₂ q : List Char) (s₁ s₂ : ℚ) (r : Except Unit (List Char))
    (ht : t ≠ []) (h₁ : s₁ > 1/2) (h₂ : s₂ > 1/2) :
    get_relevant_context [⟨t, f₁⟩, ⟨t, f₂⟩]
      (fun _ => Except.ok [(s₁, 0), (s₂, 1)]) [q] r = ([t], [f₁]) := by
  have ht' : t.isEmpty = false := by simpa using ht
  simp only [get_relevant_context, retrieveLoop, List.foldlM, bind, Except.bind,
    pure, Except.pure, processHit, pyGet, if_pos h₁, if_pos h₂, ht']
  simp [ht, rerank_chunks_with_llm]

/-- Claim C1, witness for the amended theorem with text `"t"`, files
`"f1"`/`"f2"`, both scores 1. -/
theorem c1_witness :
    get_relevant_context [⟨['t'], ['f', '1']⟩, ⟨['t'], ['f', '2']⟩]
      (fun _ => Except.ok [((1 : ℚ), (0 : Int)), ((1 : ℚ), (1 : Int))])
      [['q']] (Except.ok ['9']) = ([['t']], [['f', '1']]) :=
  c1_duplicate_text_first_source_only ['t'] ['f', '1'] ['f', '2'] ['q'] 1 1
    (Except.ok ['9']) (by decide) (by norm_num) (by norm_num)

/-- Claim C3, counterexample.  `_create_and_save_index` performs no check
that `len(vectors) == len(metadata)`: with one well-dimensioned vector and
two metadata entries it succeeds (no explicit error) and stores the
mismatched snapshot — one vector alongside two metadata records. -/
theorem c3_counterexample :
    ∃ st : CloudStore Nat,
      create_and_save_index [(1 : ℝ) :: List.replicate 1535 0] [0, 1] = Except.ok st ∧
      st.indexBlob.map List.length = some 1 ∧
      st.metadataBlob.map List.length = some 2 := by
  refine ⟨⟨some ([(1 : ℝ) :: List.replicate 1535 0].map normalizeL2), some [0, 1]⟩, ?_,
    by simp only [Option.map_some', List.length_map, List.length_singleton],
    by simp only [Option.map_some', List.length_cons, List.length_nil]⟩
  unfold create_and_save_index
  rw [if_pos]
  rw [List.all_eq_true]
  intro v hv
  rw [List.mem_singleton] at hv
  rw [hv]
  simp only [decide_eq_true_eq, List.length_cons, List.length_replicate]
  rfl

/-- Claim C3 (amended): the index build operation performs no
length-mismatch check at all.  For inputs with `len(vectors) ≠
len(metadata)` whose vectors all have the configured dimension, it
succeeds and stores every vector and every metadata record unchanged in
count — the snapshot silently keeps the mismatch (so nothing is truncated
or padded, but no explicit error is raised either). -/
theorem c3_no_length_check (V : List (List ℝ)) (M : List μ)
    (hne : V.length ≠ M.length) (hdim : ∀ v ∈ V, v.length = dimension) :
    ∃ st : CloudStore μ,
      create_and_save_index V M = Except.ok st ∧
      st.indexBlob.map List.length = some V.length ∧
      st.metadataBlob = some M := by
  refine ⟨⟨some (V.map normalizeL2), some M⟩, ?_, by simp, rfl⟩
  unfold create_and_save_index
  rw [if_pos]
  rw [List.all_eq_true]
  intro v hv
  exact decide_eq_true (hdim v hv)

/-- Claim C3, witness for the amended theorem: one 1536-dimensional vector
against two metadata entries. -/
theorem c3_witness :
    ∃ st : CloudStore Nat,
      create_and_save_index [(1 : ℝ) :: List.replicate 1535 0] [0, 1] = Except.ok st ∧
      st.indexBlob.map List.length =
        some ([(1 : ℝ) :: List.replicate 1535 0] : List (List ℝ)).length ∧
      st.metadataBlob = some [0, 1] :=
  c3_no_length_check [(1 : ℝ) :: List.replicate 1535 0] [0, 1] (by norm_num)
    (fun v hv => by
      rw [List.mem_singleton] at hv
      rw [hv, List.length_cons, List.length_replicate]
      rfl)

/-- Claim C5: for every vectors/metadata pair with `len(V) == len(M)`
(and vectors of the configured dimension, without which `index.add`
raises), building succeeds and loading the persisted snapshot yields
exactly the L2-normalized form of `V` together with `M` unchanged: the
round trip through the blob store is lossless. -/
theorem c5_round_trip (V : List (List ℝ)) (M : List μ)
    (hlen : V.length = M.length) (hdim : ∀ v ∈ V, v.length = dimension) :
    ∃ st : CloudStore μ,
      create_and_save_index V M = Except.ok st ∧
      load_index st = Except.ok (V.map normalizeL2, M) := by
  refine ⟨⟨some (V.map normalizeL2), some M⟩, ?_, rfl⟩
  unfold create_and_save_index
  rw [if_pos]
  rw [List.all_eq_true]
  intro v hv
  exact decide_eq_true (hdim v hv)

/-- Claim C5, witness at `V = [e₁]` (a 1536-dimensional unit-axis vector)
and `M = [7]`. -/
theorem c5_witness :
    ∃ st : CloudStore Nat,
      create_and_save_index [(1 : ℝ) :: List.replicate 1535 0] [7] = Except.ok st ∧
      load_index st =
        Except.ok (([(1 : ℝ) :: List.replicate 1535 0] : List (List ℝ)).map normalizeL2, [7]) :=
  c5_round_trip [(1 : ℝ) :: List.replicate 1535 0] [7] rfl
    (fun v hv => by
      rw [List.mem_singleton] at hv
      rw [hv, List.length_cons, List.length_replicate]
      rfl)

/-- Claim C8: a question asked while no index has ever been loaded
(`self.index is None`) yields the fixed "no documents yet" answer paired
with an empty sources list, for every question, history and oracle — and
the embedding is total, so no exception reaches the caller. -/
theorem c8_no_index_graceful (metadata : List ChunkMeta)
    (expandReply : Except Unit (List Char))
    (search : List Char → Except Unit (List (ℚ × Int)))
    (rerankReply : Except Unit (List Char))
    (genReply : List ChatMsg → Except Unit (List Char))
    (question : List Char) (history : List ChatMsg) :
    answer_question none metadata expandReply search rerankReply genReply
      question history = (no_documents_answer, []) := rfl

/-- Claim C8, witness at a concrete question with failing oracles. -/
theorem c8_witness :
    answer_question none [] (Except.error ()) (fun _ => Except.error ())
      (Except.error ()) (fun _ => Except.error ()) ['q'] [] =
      (no_documents_answer, []) :=
  c8_no_index_graceful [] (Except.error ()) (fun _ => Except.error ())
    (Except.error ()) (fun _ => Except.error ()) ['q'] []

/-- Claim C9: answer synthesis consults at most the last 10 history turns
— the message sequence built by `_generate_answer` embeds exactly the
suffix `history[-10:]` (length ≤ 10) between the system turn and the user
turn — and the caller's history list is returned unchanged by the
state-passing embedding (the code never mutates it; `[-10:]` slices a
copy). -/
theorem c9_history_capped_and_unmutated (question : List Char)
    (context_chunks : List (List Char)) (history : List ChatMsg)
    (genReply : List ChatMsg → Except Unit (List Char)) :
    (generate_answer question context_chunks history genReply).2 = history ∧
    ∃ hseg : List ChatMsg,
      build_messages question context_chunks history =
        [system_message] ++ hseg ++ [user_message question context_chunks] ∧
      hseg.length ≤ 10 ∧ ∃ pre, history = pre ++ hseg := by
  constructor
  · unfold generate_answer
    split <;> rfl
  · unfold build_messages
    by_cases h : history.isEmpty
    · exact ⟨[], by simp [h], by simp, history, by simp⟩
    · refine ⟨history.drop (history.length - 10), by simp [h], ?_,
        history.take (history.length - 10), (List.take_append_drop _ _).symm⟩
      simp only [List.length_drop]
      omega

/-- Claim C9, witness at a 12-turn history. -/
theorem c9_witness :
    (generate_answer ['q'] [['c']] (List.replicate 12 ⟨['u'], ['m']⟩)
        (fun _ => Except.error ())).2 = List.replicate 12 ⟨['u'], ['m']⟩ ∧
    ∃ hseg : List ChatMsg,
      build_messages ['q'] [['c']] (List.replicate 12 ⟨['u'], ['m']⟩) =
        [system_message] ++ hseg ++ [user_message ['q'] [['c']]] ∧
      hseg.length ≤ 10 ∧
      ∃ pre, List.replicate 12 (⟨['u'], ['m']⟩ : ChatMsg) = pre ++ hseg :=
  c9_history_capped_and_unmutated ['q'] [['c']]
    (List.replicate 12 ⟨['u'], ['m']⟩) (fun _ => Except.error ())

/-- Claim C4: for every input, every chunk produced by the chunker has at
most `chunk_size` (300) tokens, and every pair of consecutive chunks (the
earlier one therefore cut mid-stream) shares a nonempty segment of at most
`overlap` (50) tokens that is a suffix of the earlier chunk — hence lies
within its trailing 50 tokens — and a leading segment of the later chunk. -/
theorem c4_chunk_size_and_overlap (P : List Nat → Bool) (stripNonempty : Bool)
    (tokens : List Nat) :
    (∀ c ∈ split_into_chunks P stripNonempty tokens, c.length ≤ chunk_size) ∧
    List.Chain' chunkOverlap (split_into_chunks P stripNonempty tokens) := by
  unfold split_into_chunks
  split
  · simp
  · split
    · simp
    · exact ⟨splitGo_length_le P tokens, splitGo_chain P tokens⟩

/-- Claim C4, witness at a one-token text with a trivial
sentence-terminator predicate. -/
theorem c4_witness :
    (∀ c ∈ split_into_chunks (fun _ => false) true [0], c.length ≤ chunk_size) ∧
    List.Chain' chunkOverlap (split_into_chunks (fun _ => false) true [0]) :=
  c4_chunk_size_and_overlap (fun _ => false) true [0]

end Dataroom
